import Mathlib

/-!
Verification of the options-analytics pipeline of `options_gex.py`:
the Black-Scholes Greeks evaluator `black_scholes_greeks`, the per-row
gamma-exposure computation `calculate_gex`, and the per-strike
grouping / cumulative-sum / first-minimum reduction used for the
zero-gamma estimate.

Python floats are modelled by the real numbers `ℝ`; the field convention
`x / 0 = 0` stands in for the IEEE non-finite values produced by the
unguarded divisions.  Row fields coming from a pandas row (a dict-like
object with possibly missing, `None`-valued, or non-numeric entries) are
modelled by `Option PyVal`.
-/

open scoped BigOperators

namespace OptionsGex

/-- The standard normal density `n(x) = exp(-x²/2)/√(2π)` (`scipy.stats.norm.pdf`). -/
noncomputable def normPdf (x : ℝ) : ℝ :=
  Real.exp (-(x ^ 2) / 2) / Real.sqrt (2 * Real.pi)

/-- The standard normal cumulative distribution function (`scipy.stats.norm.cdf`). -/
noncomputable def normCdf (x : ℝ) : ℝ :=
  ∫ t in Set.Iic x, normPdf t

/-- Output record of `black_scholes_greeks` (the Python dict
`{'delta': …, 'gamma': …, 'theta': …, 'vega': …}`). -/
structure Greeks where
  delta : ℝ
  gamma : ℝ
  theta : ℝ
  vega : ℝ

/-- The floor applied at the top of `black_scholes_greeks`
(`if T <= 0: T = 0.001`, `options_gex.py` lines 37-38). -/
noncomputable def Tfloor (T : ℝ) : ℝ :=
  if T ≤ 0 then 0.001 else T

/-- `d1 = (np.log(S/K) + (r + 0.5*sigma**2)*T) / (sigma*np.sqrt(T))`
(`options_gex.py` line 40, evaluated after the `T` floor). -/
noncomputable def d1 (S K T r sigma : ℝ) : ℝ :=
  (Real.log (S / K) + (r + 0.5 * sigma ^ 2) * T) / (sigma * Real.sqrt T)

/-- `d2 = d1 - sigma*np.sqrt(T)` (`options_gex.py` line 41). -/
noncomputable def d2 (S K T r sigma : ℝ) : ℝ :=
  d1 S K T r sigma - sigma * Real.sqrt T

/-- Shallow embedding of `black_scholes_greeks(S, K, T, r, sigma, option_type='call')`
from `options_gex.py` lines 35-53.  The option type is a raw string, as in the
source; the only branch on it is the equality test with the literal `'call'`.
The only input adjustment is the floor `T = 0.001` when `T <= 0`; no other
input is validated. -/
noncomputable def black_scholes_greeks (S K T r sigma : ℝ)
    (option_type : String := "call") : Greeks :=
  let T := Tfloor T
  { delta :=
      if option_type = "call" then normCdf (d1 S K T r sigma)
      else normCdf (d1 S K T r sigma) - 1
    theta :=
      if option_type = "call" then
        (-S * normPdf (d1 S K T r sigma) * sigma / (2 * Real.sqrt T)
          - r * K * Real.exp (-r * T) * normCdf (d2 S K T r sigma)) / 365
      else
        (-S * normPdf (d1 S K T r sigma) * sigma / (2 * Real.sqrt T)
          + r * K * Real.exp (-r * T) * normCdf (-(d2 S K T r sigma))) / 365
    gamma := normPdf (d1 S K T r sigma) / (S * sigma * Real.sqrt T)
    vega := S * normPdf (d1 S K T r sigma) * Real.sqrt T / 100 }

/-- A value stored in a chain-row field: a number, Python `None`, or a truthy
non-numeric value (e.g. a non-empty string) on which arithmetic raises. -/
inductive PyVal where
  | num (x : ℝ)
  | pynone
  | bad

/-- The `expiration` field after `pd.to_datetime`: either a date lying `days`
days after `datetime.now()` (the value of `(exp_date - datetime.now()).days`),
or an unparseable value on which `pd.to_datetime` raises. -/
inductive ExpVal where
  | date (days : ℤ)
  | invalid
  deriving DecidableEq

/-- One row of the option chain as consumed by `calculate_gex`.  `none` means
the key is absent from the row. -/
structure ChainRow where
  strike : Option PyVal := none
  open_interest : Option PyVal := none
  implied_volatility : Option PyVal := none
  expiration : Option ExpVal := none
  option_type : Option String := none

/-- `K = row['strike']`: a missing key raises `KeyError`; a `None` or
non-numeric strike raises later in the arithmetic.  All three failures are
caught by the same `except` clause, so they are collapsed into one error. -/
noncomputable def resolve_K : Option PyVal → Except Unit ℝ
  | Option.none => Except.error ()
  | Option.some (PyVal.num x) => Except.ok x
  | Option.some PyVal.pynone => Except.error ()
  | Option.some PyVal.bad => Except.error ()

/-- `oi = row.get('open_interest', 0) or 0`: an absent key or a falsy value
(`None`, `0`) yields `0`; a truthy numeric value passes through (so `x or 0`
is numerically `x` for every number `x`); a truthy non-numeric value raises
later in the arithmetic. -/
noncomputable def resolve_oi : Option PyVal → Except Unit ℝ
  | Option.none => Except.ok 0
  | Option.some (PyVal.num x) => Except.ok (if x = 0 then 0 else x)
  | Option.some PyVal.pynone => Except.ok 0
  | Option.some PyVal.bad => Except.error ()

/-- `iv = row.get('implied_volatility', 0.3) or 0.3`: an absent key or a falsy
value (`None`, `0`) yields the fallback `0.3`; any truthy numeric value —
including a negative one — passes through unchanged; a truthy non-numeric
value raises later in the arithmetic. -/
noncomputable def resolve_iv : Option PyVal → Except Unit ℝ
  | Option.none => Except.ok 0.3
  | Option.some (PyVal.num x) => Except.ok (if x = 0 then 0.3 else x)
  | Option.some PyVal.pynone => Except.ok 0.3
  | Option.some PyVal.bad => Except.error ()

/-- Time to expiry: `max((exp_date - datetime.now()).days / 365, 0.001)` when
the `expiration` key is present and parseable, `30/365` when it is absent, and
an exception when `pd.to_datetime` fails. -/
noncomputable def resolve_T : Option ExpVal → Except Unit ℝ
  | Option.none => Except.ok (30 / 365)
  | Option.some (ExpVal.date d) => Except.ok (max ((d : ℝ) / 365) 0.001)
  | Option.some ExpVal.invalid => Except.error ()

/-- `row.get('option_type', 'call')`. -/
def resolve_ot : Option String → String
  | Option.none => "call"
  | Option.some s => s

/-- The body of the `try`-block of `calculate_gex(row, spot_price,
contract_size=100)` (`options_gex.py` lines 55-74): resolve the row fields,
call `black_scholes_greeks` with the hardcoded risk-free rate `0.05`, scale
gamma by open interest and notional, and negate for puts.  `Except.error ()`
marks any raised exception. -/
noncomputable def calcGexTry (row : ChainRow) (spot_price : ℝ)
    (contract_size : ℝ := 100) : Except Unit ℝ :=
  match resolve_K row.strike with
  | Except.error e => Except.error e
  | Except.ok K =>
    match resolve_oi row.open_interest with
    | Except.error e => Except.error e
    | Except.ok oi =>
      match resolve_iv row.implied_volatility with
      | Except.error e => Except.error e
      | Except.ok iv =>
        match resolve_T row.expiration with
        | Except.error e => Except.error e
        | Except.ok T =>
          let greeks := black_scholes_greeks spot_price K T 0.05 iv
            (resolve_ot row.option_type)
          let gex := greeks.gamma * oi * spot_price ^ 2 * contract_size * 0.01
          Except.ok (if resolve_ot row.option_type = "put" then -gex else gex)

/-- `calculate_gex(row, spot_price, contract_size=100)`: the `try` body, with
every exception caught and converted to a zero contribution (`except: return 0`). -/
noncomputable def calculate_gex (row : ChainRow) (spot_price : ℝ)
    (contract_size : ℝ := 100) : ℝ :=
  match calcGexTry row spot_price contract_size with
  | Except.ok v => v
  | Except.error _ => 0

/-- Net GEX of a chain: the sum of the per-row exposures
(`exp_data['gex'] = exp_data.apply(...)` followed by summation; grouping by
strike before summing does not change the total). -/
noncomputable def netGex (chain : List ChainRow) (spot_price : ℝ) : ℝ :=
  (chain.map fun row => calculate_gex row spot_price).sum

/-! ### Spec-side formulas

The following definitions transcribe the closed-form formulas as the spec
states them (section 4.1), to be compared with the source-side
`black_scholes_greeks`. -/

/-- Spec formula `d1 = (ln(S/K) + (r + 0.5*sigma^2)*T)/(sigma*sqrt(T))`. -/
noncomputable def specD1 (S K T r sigma : ℝ) : ℝ :=
  (Real.log (S / K) + (r + 0.5 * sigma ^ 2) * T) / (sigma * Real.sqrt T)

/-- Spec formula `d2 = d1 - sigma*sqrt(T)`. -/
noncomputable def specD2 (S K T r sigma : ℝ) : ℝ :=
  specD1 S K T r sigma - sigma * Real.sqrt T

/-- The spec's stated Greeks for a call:
`delta = N(d1)`, `theta = (-S*n(d1)*sigma/(2*sqrt(T)) - r*K*exp(-r*T)*N(d2))/365`,
`gamma = n(d1)/(S*sigma*sqrt(T))`, `vega = S*n(d1)*sqrt(T)/100`. -/
noncomputable def specGreeksCall (S K T r sigma : ℝ) : Greeks :=
  { delta := normCdf (specD1 S K T r sigma)
    theta :=
      (-S * normPdf (specD1 S K T r sigma) * sigma / (2 * Real.sqrt T)
        - r * K * Real.exp (-r * T) * normCdf (specD2 S K T r sigma)) / 365
    gamma := normPdf (specD1 S K T r sigma) / (S * sigma * Real.sqrt T)
    vega := S * normPdf (specD1 S K T r sigma) * Real.sqrt T / 100 }

/-- The spec's stated Greeks for a put:
`delta = N(d1) - 1`, `theta = (-S*n(d1)*sigma/(2*sqrt(T)) + r*K*exp(-r*T)*N(-d2))/365`,
and the same `gamma` and `vega` as the call. -/
noncomputable def specGreeksPut (S K T r sigma : ℝ) : Greeks :=
  { delta := normCdf (specD1 S K T r sigma) - 1
    theta :=
      (-S * normPdf (specD1 S K T r sigma) * sigma / (2 * Real.sqrt T)
        + r * K * Real.exp (-r * T) * normCdf (-(specD2 S K T r sigma))) / 365
    gamma := normPdf (specD1 S K T r sigma) / (S * sigma * Real.sqrt T)
    vega := S * normPdf (specD1 S K T r sigma) * Real.sqrt T / 100 }

/-! ### Per-strike reduction (`options_gex.py` lines 195-201)

The reduction consumes the dataframe fragment with the `strike` and `gex`
columns, modelled as a list of `(strike, gex)` pairs. -/

/-- The strike labels produced by `groupby('strike')`: the distinct strike
values, sorted ascending (pandas sorts group keys ascending by default). -/
noncomputable def sortedStrikes (rows : List (ℝ × ℝ)) : List ℝ :=
  ((rows.map Prod.fst).dedup).insertionSort (· ≤ ·)

/-- `gex_by_strike = exp_data.groupby('strike')['gex'].sum()`: for each distinct
strike in ascending order, the sum of the `gex` values of the rows carrying
that strike. -/
noncomputable def gexSeriesByStrike (rows : List (ℝ × ℝ)) : List (ℝ × ℝ) :=
  (sortedStrikes rows).map fun k =>
    (k, ((rows.filter fun q => q.1 = k).map Prod.snd).sum)

/-- Running cumulative sum with accumulator (`Series.cumsum`). -/
noncomputable def cumsumFrom (acc : ℝ) : List ℝ → List ℝ
  | [] => []
  | x :: xs => (acc + x) :: cumsumFrom (acc + x) xs

/-- `gex_by_strike['cumsum'] = gex_by_strike['gex'].cumsum()`. -/
noncomputable def cumsum (l : List ℝ) : List ℝ :=
  cumsumFrom 0 l

/-- The minimum of the absolute values of a list (`Series.abs().min()`);
junk value `0` on the empty list. -/
noncomputable def minAbsVal : List ℝ → ℝ
  | [] => 0
  | [x] => |x|
  | x :: y :: rest => min |x| (minAbsVal (y :: rest))

/-- `Series.abs().idxmin()` on a positionally-indexed series: the index of the
first element of minimum absolute value (pandas `idxmin` returns the first
occurrence of the minimum). -/
noncomputable def argminAbs : List ℝ → ℕ
  | [] => 0
  | [_] => 0
  | x :: y :: rest =>
    if |x| ≤ minAbsVal (y :: rest) then 0 else argminAbs (y :: rest) + 1

/-- `zero_gamma = gex_by_strike.loc[(gex_by_strike['cumsum'].abs()).idxmin(), 'strike']`:
the strike of the per-strike series at the first position of minimum absolute
cumulative sum. -/
noncomputable def zeroGammaStrike (rows : List (ℝ × ℝ)) : ℝ :=
  ((gexSeriesByStrike rows).getD
    (argminAbs (cumsum ((gexSeriesByStrike rows).map Prod.snd))) (0, 0)).1

/-! ### Row predicates used by the sign-convention claim -/

/-- The row's `open_interest` field resolves to a non-negative number if it is
numeric at all. -/
def oiNonneg (row : ChainRow) : Prop :=
  ∀ x : ℝ, row.open_interest = Option.some (PyVal.num x) → 0 ≤ x

/-- The row's `implied_volatility` field resolves to a non-negative number if
it is numeric at all (absent, `None`, and `0` values become the positive
fallback `0.3`). -/
def ivNonneg (row : ChainRow) : Prop :=
  ∀ x : ℝ, row.implied_volatility = Option.some (PyVal.num x) → 0 ≤ x

/-! ### Helper lemmas on `black_scholes_greeks` -/

lemma black_scholes_eq_call (S K T r sigma : ℝ) :
    black_scholes_greeks S K T r sigma "call" = specGreeksCall S K (Tfloor T) r sigma :=
  rfl

lemma black_scholes_ne_call {ot : String} (h : ot ≠ "call") (S K T r sigma : ℝ) :
    black_scholes_greeks S K T r sigma ot = specGreeksPut S K (Tfloor T) r sigma := by
  simp only [black_scholes_greeks, specGreeksPut, if_neg h]
  rfl

lemma black_scholes_gamma (S K T r sigma : ℝ) (ot : String) :
    (black_scholes_greeks S K T r sigma ot).gamma =
      normPdf (d1 S K (Tfloor T) r sigma) / (S * sigma * Real.sqrt (Tfloor T)) :=
  rfl

/-! ### Claims -/

/-- **C1.** For `S > 0`, `K > 0`, `sigma > 0`, `black_scholes_greeks` returns
exactly the spec's closed-form Black-Scholes Greeks, evaluated at `d1` and
`d2` with `T` replaced by the floor `0.001` whenever `T ≤ 0`: the call branch
yields the spec's call delta/theta, the put branch the spec's put delta/theta,
and gamma and vega the common formulas. -/
theorem claim1_greeks_match_spec_formulas (S K T r sigma : ℝ)
    (hS : 0 < S) (hK : 0 < K) (hsigma : 0 < sigma) :
    black_scholes_greeks S K T r sigma "call" = specGreeksCall S K (Tfloor T) r sigma ∧
    black_scholes_greeks S K T r sigma "put" = specGreeksPut S K (Tfloor T) r sigma :=
  ⟨black_scholes_eq_call S K T r sigma,
   black_scholes_ne_call (by decide) S K T r sigma⟩

/-- Witness for C1 at `S = 1`, `K = 1`, `T = 1`, `r = 0`, `sigma = 1`. -/
theorem claim1_greeks_match_spec_formulas_witness :
    black_scholes_greeks 1 1 1 0 1 "call" = specGreeksCall 1 1 (Tfloor 1) 0 1 ∧
    black_scholes_greeks 1 1 1 0 1 "put" = specGreeksPut 1 1 (Tfloor 1) 0 1 :=
  claim1_greeks_match_spec_formulas 1 1 1 0 1 (by norm_num) (by norm_num) (by norm_num)

/-- **C2** (code bug).  The claim says `sigma <= 0` (or `S <= 0`, `K <= 0`)
makes the Greeks evaluator fail with `InvalidInputError`; the code has no such
guard.  At the failing input `S = 100`, `K = 100`, `T = 1`, `r = 0.05`,
`sigma = 0`, the code performs the unguarded division `n(d1)/(S*sigma*sqrt(T))`
with a zero denominator and returns a result record instead of raising
(a float evaluation yields non-finite components; under the real-field
convention `x / 0 = 0` the gamma collapses to `0`). -/
theorem claim2_no_guard_at_sigma_zero :
    (black_scholes_greeks 100 100 1 0.05 0 "call").gamma = 0 := by
  rw [black_scholes_gamma]
  simp

/-- **C6** (counterexample).  The claim says a non-positive implied volatility
is replaced by the fallback `0.30`; at the concrete non-positive value `-1/2`
the code's resolution `row.get('implied_volatility', 0.3) or 0.3` keeps
`-1/2` (a negative float is truthy), so the fallback is not applied. -/
theorem claim6_counterexample :
    (-(1 : ℝ) / 2) ≤ 0 ∧
    resolve_iv (Option.some (PyVal.num (-(1 : ℝ) / 2))) ≠ Except.ok 0.3 ∧
    resolve_iv (Option.some (PyVal.num (-(1 : ℝ) / 2))) = Except.ok (-(1 : ℝ) / 2) := by
  refine ⟨by norm_num, ?_, ?_⟩
  · simp only [resolve_iv]
    norm_num
  · simp only [resolve_iv]
    norm_num

/-- **C6** (amended).  The per-row GEX computation substitutes the fallback
volatility `0.30` exactly when the implied-volatility field is missing, `None`,
or zero; every other numeric value — positive or negative — is used unchanged. -/
theorem claim6_iv_fallback_amended :
    resolve_iv Option.none = Except.ok 0.3 ∧
    resolve_iv (Option.some PyVal.pynone) = Except.ok 0.3 ∧
    resolve_iv (Option.some (PyVal.num 0)) = Except.ok 0.3 ∧
    ∀ x : ℝ, x ≠ 0 → resolve_iv (Option.some (PyVal.num x)) = Except.ok x := by
  refine ⟨rfl, rfl, by simp [resolve_iv], fun x hx => ?_⟩
  simp [resolve_iv, hx]

/-- Witness for the amended C6 at the nonzero volatility `2`. -/
theorem claim6_iv_fallback_amended_witness :
    resolve_iv (Option.some (PyVal.num 2)) = Except.ok 2 :=
  claim6_iv_fallback_amended.2.2.2 2 (by norm_num)

/-- **C7.** Put-call delta parity: for positive `S`, `K`, `sigma`, the call
delta minus the put delta at identical parameters equals `1` (exactly, in the
real-number model). -/
theorem claim7_put_call_delta_parity (S K T r sigma : ℝ)
    (hS : 0 < S) (hK : 0 < K) (hsigma : 0 < sigma) :
    (black_scholes_greeks S K T r sigma "call").delta -
      (black_scholes_greeks S K T r sigma "put").delta = 1 := by
  rw [black_scholes_eq_call, black_scholes_ne_call (by decide)]
  show normCdf _ - (normCdf _ - 1) = 1
  ring

/-- Witness for C7 at `S = 1`, `K = 1`, `T = 1`, `r = 0`, `sigma = 1`. -/
theorem claim7_put_call_delta_parity_witness :
    (black_scholes_greeks 1 1 1 0 1 "call").delta -
      (black_scholes_greeks 1 1 1 0 1 "put").delta = 1 :=
  claim7_put_call_delta_parity 1 1 1 0 1 (by norm_num) (by norm_num) (by norm_num)

/-- **C9.** `black_scholes_greeks` is total: it is defined on every real input
and every option-type string, with no validation of `sigma`, `S` or `K`; the
divisions by `sigma*sqrt(T)` and `S*sigma*sqrt(T)` are unguarded, so at
`sigma = 0` or `S = 0` the gamma denominator is zero and the result is the
real-field division-by-zero value `0` (the model of the non-finite float
result) rather than an error. -/
theorem claim9_totality_unguarded (S K T r sigma : ℝ) (ot : String)
    (h : sigma = 0 ∨ S = 0) :
    (black_scholes_greeks S K T r sigma ot).gamma = 0 := by
  rw [black_scholes_gamma]
  rcases h with h | h <;> simp [h]

/-- Witness for C9 at `sigma = 0`. -/
theorem claim9_totality_unguarded_witness :
    (black_scholes_greeks 1 1 1 0 0 "call").gamma = 0 :=
  claim9_totality_unguarded 1 1 1 0 0 "call" (Or.inl rfl)

/-- **C10.** `black_scholes_greeks` compares its option type only against the
exact string `"call"`: for every other string — `"put"`, `"Call"`, `"CALL"`,
or anything else — it returns exactly the put-branch result, in particular the
put delta `N(d1) - 1`. -/
theorem claim10_non_call_takes_put_branch (S K T r sigma : ℝ) (ot : String)
    (h : ot ≠ "call") :
    black_scholes_greeks S K T r sigma ot = black_scholes_greeks S K T r sigma "put" ∧
    (black_scholes_greeks S K T r sigma ot).delta =
      normCdf (d1 S K (Tfloor T) r sigma) - 1 := by
  rw [black_scholes_ne_call h, black_scholes_ne_call (by decide)]
  exact ⟨rfl, rfl⟩

/-- Witness for C10 at the string `"CALL"` (case-sensitive mismatch). -/
theorem claim10_non_call_takes_put_branch_witness :
    black_scholes_greeks 1 1 1 0 1 "CALL" = black_scholes_greeks 1 1 1 0 1 "put" ∧
    (black_scholes_greeks 1 1 1 0 1 "CALL").delta =
      normCdf (d1 1 1 (Tfloor 1) 0 1) - 1 :=
  claim10_non_call_takes_put_branch 1 1 1 0 1 "CALL" (by decide)

/-- **C3.** On a row whose fields all resolve successfully, `calculate_gex`
invokes the Greeks evaluator with the hardcoded risk-free rate `0.05`,
computes `exposure = gamma * open_interest * spot^2 * contract_size * 0.01`
with the default contract size `100`, and negates the exposure exactly when
the row's option type is `"put"`. -/
theorem claim3_per_row_gex_formula (row : ChainRow) (spot K oi sigma T : ℝ)
    (hK : resolve_K row.strike = Except.ok K)
    (hoi : resolve_oi row.open_interest = Except.ok oi)
    (hiv : resolve_iv row.implied_volatility = Except.ok sigma)
    (hT : resolve_T row.expiration = Except.ok T) :
    calculate_gex row spot =
      (if resolve_ot row.option_type = "put" then -1 else 1) *
        ((black_scholes_greeks spot K T 0.05 sigma (resolve_ot row.option_type)).gamma *
          oi * spot ^ 2 * 100 * 0.01) := by
  unfold calculate_gex calcGexTry
  rw [hK, hoi, hiv, hT]
  by_cases hput : resolve_ot row.option_type = "put"
  · simp only [hput, if_pos]
    ring
  · simp only [if_neg hput]
    ring

/-- Witness for C3: a put row with strike `100`, open interest `50`, implied
volatility `1/4` and no expiration (so `T = 30/365`), at spot `90`. -/
theorem claim3_per_row_gex_formula_witness :
    calculate_gex
      { strike := Option.some (PyVal.num 100)
        open_interest := Option.some (PyVal.num 50)
        implied_volatility := Option.some (PyVal.num (1 / 4))
        expiration := Option.none
        option_type := Option.some "put" } 90 =
      (if resolve_ot (Option.some "put") = "put" then -1 else 1) *
        ((black_scholes_greeks 90 100 (30 / 365) 0.05 (1 / 4)
          (resolve_ot (Option.some "put"))).gamma * 50 * 90 ^ 2 * 100 * 0.01) :=
  claim3_per_row_gex_formula _ 90 100 50 (1 / 4) (30 / 365)
    rfl (by norm_num [resolve_oi]) (by norm_num [resolve_iv]) rfl

/-- **C5.** A row on which the per-row computation fails contributes exactly
zero exposure, and removing it from the chain leaves the aggregate net GEX
unchanged: one bad row never invalidates the aggregation of the rest. -/
theorem claim5_row_failure_tolerance (pre post : List ChainRow) (row : ChainRow)
    (spot : ℝ) (h : calcGexTry row spot 100 = Except.error ()) :
    calculate_gex row spot = 0 ∧
    netGex (pre ++ row :: post) spot = netGex (pre ++ post) spot := by
  have h0 : calculate_gex row spot = 0 := by
    unfold calculate_gex
    rw [h]
  refine ⟨h0, ?_⟩
  simp [netGex, h0]

/-- Witness for C5: a row with no fields at all (`row['strike']` raises
`KeyError`) inserted between two well-formed rows. -/
theorem claim5_row_failure_tolerance_witness :
    calculate_gex { strike := Option.none } 100 = 0 ∧
    netGex ([{ strike := Option.some (PyVal.num 90) }] ++
        { strike := Option.none } :: [{ strike := Option.some (PyVal.num 110) }]) 100 =
      netGex ([{ strike := Option.some (PyVal.num 90) }] ++
        [{ strike := Option.some (PyVal.num 110) }]) 100 :=
  claim5_row_failure_tolerance
    [{ strike := Option.some (PyVal.num 90) }]
    [{ strike := Option.some (PyVal.num 110) }]
    { strike := Option.none } 100 rfl

lemma list_sum_nonpos {l : List ℝ} (h : ∀ x ∈ l, x ≤ 0) : l.sum ≤ 0 := by
  induction l with
  | nil => simp
  | cons x xs ih =>
    simp only [List.sum_cons]
    have hx := h x (List.mem_cons_self x xs)
    have hxs := ih fun y hy => h y (List.mem_cons_of_mem x hy)
    linarith

lemma normPdf_pos (x : ℝ) : 0 < normPdf x := by
  unfold normPdf
  apply div_pos (Real.exp_pos _)
  apply Real.sqrt_pos.mpr
  positivity

lemma Tfloor_pos (T : ℝ) : 0 < Tfloor T := by
  unfold Tfloor
  split
  · norm_num
  · linarith [lt_of_not_le (by assumption : ¬ T ≤ 0)]

lemma black_scholes_gamma_pos (S K T r sigma : ℝ) (ot : String)
    (hS : 0 < S) (hsigma : 0 < sigma) :
    0 < (black_scholes_greeks S K T r sigma ot).gamma := by
  rw [black_scholes_gamma]
  exact div_pos (normPdf_pos _)
    (mul_pos (mul_pos hS hsigma) (Real.sqrt_pos.mpr (Tfloor_pos T)))

lemma resolve_oi_nonneg {row : ChainRow} {oi : ℝ} (h : oiNonneg row)
    (hres : resolve_oi row.open_interest = Except.ok oi) : 0 ≤ oi := by
  unfold resolve_oi at hres
  cases hfield : row.open_interest with
  | none =>
    rw [hfield] at hres
    cases hres
    exact le_refl 0
  | some v =>
    cases v with
    | num x =>
      rw [hfield] at hres
      cases hres
      have hx : 0 ≤ x := h x hfield
      split
      · exact le_refl 0
      · exact hx
    | pynone =>
      rw [hfield] at hres
      cases hres
      exact le_refl 0
    | bad =>
      rw [hfield] at hres
      cases hres

lemma resolve_iv_pos {row : ChainRow} {iv : ℝ} (h : ivNonneg row)
    (hres : resolve_iv row.implied_volatility = Except.ok iv) : 0 < iv := by
  unfold resolve_iv at hres
  cases hfield : row.implied_volatility with
  | none =>
    rw [hfield] at hres
    cases hres
    norm_num
  | some v =>
    cases v with
    | num x =>
      rw [hfield] at hres
      cases hres
      have hx : 0 ≤ x := h x hfield
      split
      · norm_num
      · rename_i hne
        exact lt_of_le_of_ne hx (Ne.symm hne)
    | pynone =>
      rw [hfield] at hres
      cases hres
      norm_num
    | bad =>
      rw [hfield] at hres
      cases hres

/-- The sign of a single row's contribution: non-negative when the row is not
a put, non-positive when it is a put. -/
lemma calculate_gex_sign (row : ChainRow) (spot : ℝ) (hspot : 0 < spot)
    (hoi : oiNonneg row) (hiv : ivNonneg row) :
    (resolve_ot row.option_type ≠ "put" → 0 ≤ calculate_gex row spot) ∧
    (resolve_ot row.option_type = "put" → calculate_gex row spot ≤ 0) := by
  unfold calculate_gex calcGexTry
  cases hK : resolve_K row.strike with
  | error e => simp
  | ok K =>
    cases hoiR : resolve_oi row.open_interest with
    | error e => simp
    | ok oi =>
      cases hivR : resolve_iv row.implied_volatility with
      | error e => simp
      | ok iv =>
        cases hT : resolve_T row.expiration with
        | error e => simp
        | ok T =>
          have hoi0 : 0 ≤ oi := resolve_oi_nonneg hoi hoiR
          have hiv0 : 0 < iv := resolve_iv_pos hiv hivR
          have hg : 0 ≤ (black_scholes_greeks spot K T 0.05 iv
              (resolve_ot row.option_type)).gamma *
              oi * spot ^ 2 * 100 * 0.01 := by
            have := black_scholes_gamma_pos spot K T 0.05 iv
              (resolve_ot row.option_type) hspot hiv0
            positivity
          constructor
          · intro hot
            simp only [if_neg hot]
            exact hg
          · intro hot
            simp only [if_pos hot]
            linarith

/-- **C8.** GEX sign convention: with a positive spot price and rows whose
numeric open-interest and implied-volatility fields are non-negative, a chain
consisting only of call rows has net GEX `≥ 0`, and a chain consisting only of
put rows has net GEX `≤ 0`. -/
theorem claim8_gex_sign_convention (chain : List ChainRow) (spot : ℝ)
    (hspot : 0 < spot)
    (hoi : ∀ row ∈ chain, oiNonneg row) (hiv : ∀ row ∈ chain, ivNonneg row) :
    ((∀ row ∈ chain, resolve_ot row.option_type = "call") →
      0 ≤ netGex chain spot) ∧
    ((∀ row ∈ chain, resolve_ot row.option_type = "put") →
      netGex chain spot ≤ 0) := by
  constructor
  · intro hcall
    apply List.sum_nonneg
    intro x hx
    rcases List.mem_map.mp hx with ⟨row, hrow, rfl⟩
    exact (calculate_gex_sign row spot hspot (hoi row hrow) (hiv row hrow)).1
      (by rw [hcall row hrow]; decide)
  · intro hput
    apply list_sum_nonpos
    intro x hx
    rcases List.mem_map.mp hx with ⟨row, hrow, rfl⟩
    exact (calculate_gex_sign row spot hspot (hoi row hrow) (hiv row hrow)).2
      (hput row hrow)

/-- Witness for C8: a one-row call chain and a one-row put chain, both with
open interest `50` and implied volatility `1/4`, at spot `100`. -/
theorem claim8_gex_sign_convention_witness :
    0 ≤ netGex [{ strike := Option.some (PyVal.num 90)
                  open_interest := Option.some (PyVal.num 50)
                  implied_volatility := Option.some (PyVal.num (1 / 4))
                  option_type := Option.some "call" }] 100 ∧
    netGex [{ strike := Option.some (PyVal.num 90)
              open_interest := Option.some (PyVal.num 50)
              implied_volatility := Option.some (PyVal.num (1 / 4))
              option_type := Option.some "put" }] 100 ≤ 0 := by
  constructor
  · exact (claim8_gex_sign_convention _ 100 (by norm_num)
      (by
        intro row hrow
        simp only [List.mem_singleton] at hrow
        subst hrow
        intro x hx
        simp only [Option.some.injEq, PyVal.num.injEq] at hx
        norm_num [← hx])
      (by
        intro row hrow
        simp only [List.mem_singleton] at hrow
        subst hrow
        intro x hx
        simp only [Option.some.injEq, PyVal.num.injEq] at hx
        norm_num [← hx])).1
      (by
        intro row hrow
        simp only [List.mem_singleton] at hrow
        subst hrow
        rfl)
  · exact (claim8_gex_sign_convention _ 100 (by norm_num)
      (by
        intro row hrow
        simp only [List.mem_singleton] at hrow
        subst hrow
        intro x hx
        simp only [Option.some.injEq, PyVal.num.injEq] at hx
        norm_num [← hx])
      (by
        intro row hrow
        simp only [List.mem_singleton] at hrow
        subst hrow
        intro x hx
        simp only [Option.some.injEq, PyVal.num.injEq] at hx
        norm_num [← hx])).2
      (by
        intro row hrow
        simp only [List.mem_singleton] at hrow
        subst hrow
        rfl)

/-! ### Lemmas on the per-strike reduction -/

lemma cumsumFrom_length (acc : ℝ) (l : List ℝ) :
    (cumsumFrom acc l).length = l.length := by
  induction l generalizing acc with
  | nil => rfl
  | cons x xs ih => simp [cumsumFrom, ih]

lemma cumsum_length (l : List ℝ) : (cumsum l).length = l.length :=
  cumsumFrom_length 0 l

lemma minAbsVal_le (l : List ℝ) (j : ℕ) (hj : j < l.length) :
    minAbsVal l ≤ |l.getD j 0| := by
  induction l generalizing j with
  | nil => simp at hj
  | cons x xs ih =>
    cases xs with
    | nil =>
      have hj0 : j = 0 := by
        simp only [List.length_cons, List.length_nil] at hj
        omega
      subst hj0
      simp [minAbsVal]
    | cons y rest =>
      cases j with
      | zero =>
        simp only [minAbsVal, List.getD_cons_zero]
        exact min_le_left _ _
      | succ k =>
        have hk : k < (y :: rest).length := by
          simpa using Nat.lt_of_succ_lt_succ hj
        calc minAbsVal (x :: y :: rest) ≤ minAbsVal (y :: rest) := min_le_right _ _
          _ ≤ |(y :: rest).getD k 0| := ih k hk
          _ = |(x :: y :: rest).getD (k + 1) 0| := by simp

lemma argminAbs_lt_length (l : List ℝ) (h : l ≠ []) :
    argminAbs l < l.length := by
  induction l with
  | nil => exact absurd rfl h
  | cons x xs ih =>
    cases xs with
    | nil => simp [argminAbs]
    | cons y rest =>
      by_cases hle : |x| ≤ minAbsVal (y :: rest)
      · simp [argminAbs, hle]
      · have hlen := ih (List.cons_ne_nil y rest)
        simp only [List.length_cons] at hlen ⊢
        simp only [argminAbs, if_neg hle]
        omega

lemma getD_argminAbs (l : List ℝ) (h : l ≠ []) :
    |l.getD (argminAbs l) 0| = minAbsVal l := by
  induction l with
  | nil => exact absurd rfl h
  | cons x xs ih =>
    cases xs with
    | nil => simp [argminAbs, minAbsVal]
    | cons y rest =>
      by_cases hle : |x| ≤ minAbsVal (y :: rest)
      · simp [argminAbs, minAbsVal, if_pos hle, min_eq_left hle]
      · have hlt : minAbsVal (y :: rest) < |x| := lt_of_not_le hle
        simp only [argminAbs, if_neg hle, minAbsVal, List.getD_cons_succ]
        rw [ih (List.cons_ne_nil y rest), min_eq_right (le_of_lt hlt)]

lemma minAbsVal_lt_of_lt_argminAbs (l : List ℝ) (j : ℕ)
    (hj : j < argminAbs l) : minAbsVal l < |l.getD j 0| := by
  induction l generalizing j with
  | nil => simp [argminAbs] at hj
  | cons x xs ih =>
    cases xs with
    | nil => simp [argminAbs] at hj
    | cons y rest =>
      by_cases hle : |x| ≤ minAbsVal (y :: rest)
      · simp [argminAbs, if_pos hle] at hj
      · have hlt : minAbsVal (y :: rest) < |x| := lt_of_not_le hle
        simp only [argminAbs, if_neg hle] at hj
        cases j with
        | zero =>
          simpa [minAbsVal, min_eq_right (le_of_lt hlt)] using hlt
        | succ k =>
          have hk : k < argminAbs (y :: rest) := Nat.lt_of_succ_lt_succ hj
          have := ih k hk
          simp only [minAbsVal, List.getD_cons_succ]
          exact lt_of_le_of_lt (min_le_right _ _) this

lemma gexSeriesByStrike_map_fst (rows : List (ℝ × ℝ)) :
    (gexSeriesByStrike rows).map Prod.fst = sortedStrikes rows := by
  unfold gexSeriesByStrike
  rw [List.map_map]
  exact List.map_id _

lemma sortedStrikes_sorted (rows : List (ℝ × ℝ)) :
    List.Sorted (· < ·) (sortedStrikes rows) := by
  have hs : List.Sorted (· ≤ ·) (sortedStrikes rows) :=
    List.sorted_insertionSort (· ≤ ·) ((rows.map Prod.fst).dedup)
  have hn : (sortedStrikes rows).Nodup :=
    ((List.perm_insertionSort (· ≤ ·) ((rows.map Prod.fst).dedup)).nodup_iff).mpr
      (List.nodup_dedup _)
  exact hs.lt_of_le hn

lemma mem_sortedStrikes (rows : List (ℝ × ℝ)) (k : ℝ) :
    k ∈ sortedStrikes rows ↔ k ∈ rows.map Prod.fst := by
  unfold sortedStrikes
  rw [List.mem_insertionSort, List.mem_dedup]

lemma sortedStrikes_ne_nil (rows : List (ℝ × ℝ)) (h : rows ≠ []) :
    sortedStrikes rows ≠ [] := by
  intro hnil
  rcases List.exists_mem_of_ne_nil rows h with ⟨p, hp⟩
  have : p.1 ∈ sortedStrikes rows :=
    (mem_sortedStrikes rows p.1).mpr (List.mem_map_of_mem Prod.fst hp)
  rw [hnil] at this
  exact List.not_mem_nil _ this

/-- **C4.** The per-strike reduction: the output series carries exactly the
input strikes, sorted strictly ascending, each paired with the sum of the
signed exposures at that strike; and the zero-gamma strike is the strike at
the first position (in ascending-strike order) where the running cumulative
sum has minimum absolute value — later ties lose to the first occurrence. -/
theorem claim4_reduction_and_zero_gamma (rows : List (ℝ × ℝ)) (h : rows ≠ []) :
    List.Sorted (· < ·) ((gexSeriesByStrike rows).map Prod.fst) ∧
    (∀ k : ℝ, k ∈ (gexSeriesByStrike rows).map Prod.fst ↔ k ∈ rows.map Prod.fst) ∧
    (∀ p ∈ gexSeriesByStrike rows,
      p.2 = ((rows.filter fun q => q.1 = p.1).map Prod.snd).sum) ∧
    argminAbs (cumsum ((gexSeriesByStrike rows).map Prod.snd)) <
      (gexSeriesByStrike rows).length ∧
    zeroGammaStrike rows =
      ((gexSeriesByStrike rows).getD
        (argminAbs (cumsum ((gexSeriesByStrike rows).map Prod.snd))) (0, 0)).1 ∧
    (∀ j < (cumsum ((gexSeriesByStrike rows).map Prod.snd)).length,
      |(cumsum ((gexSeriesByStrike rows).map Prod.snd)).getD
        (argminAbs (cumsum ((gexSeriesByStrike rows).map Prod.snd))) 0| ≤
      |(cumsum ((gexSeriesByStrike rows).map Prod.snd)).getD j 0|) ∧
    (∀ j < argminAbs (cumsum ((gexSeriesByStrike rows).map Prod.snd)),
      |(cumsum ((gexSeriesByStrike rows).map Prod.snd)).getD
        (argminAbs (cumsum ((gexSeriesByStrike rows).map Prod.snd))) 0| <
      |(cumsum ((gexSeriesByStrike rows).map Prod.snd)).getD j 0|) := by
  have hne : gexSeriesByStrike rows ≠ [] := by
    unfold gexSeriesByStrike
    intro hnil
    exact sortedStrikes_ne_nil rows h (List.map_eq_nil_iff.mp hnil)
  have hcne : cumsum ((gexSeriesByStrike rows).map Prod.snd) ≠ [] := by
    intro hnil
    have := cumsum_length ((gexSeriesByStrike rows).map Prod.snd)
    rw [hnil] at this
    simp only [List.length_nil, List.length_map] at this
    exact hne (List.length_eq_zero.mp this.symm)
  refine ⟨?_, ?_, ?_, ?_, rfl, ?_, ?_⟩
  · rw [gexSeriesByStrike_map_fst]
    exact sortedStrikes_sorted rows
  · intro k
    rw [gexSeriesByStrike_map_fst]
    exact mem_sortedStrikes rows k
  · intro p hp
    rcases List.mem_map.mp hp with ⟨k, hk, rfl⟩
    rfl
  · have h1 := argminAbs_lt_length _ hcne
    have h2 := cumsum_length ((gexSeriesByStrike rows).map Prod.snd)
    rw [h2, List.length_map] at h1
    exact h1
  · intro j hj
    rw [getD_argminAbs _ hcne]
    exact minAbsVal_le _ j hj
  · intro j hj
    rw [getD_argminAbs _ hcne]
    exact minAbsVal_lt_of_lt_argminAbs _ j hj

/-- Witness for C4 on the chain fragment
`[(100, 5), (90, -3), (100, 2)]` (two rows share strike `100`). -/
theorem claim4_reduction_and_zero_gamma_witness :
    List.Sorted (· < ·)
      ((gexSeriesByStrike [((100 : ℝ), (5 : ℝ)), (90, -3), (100, 2)]).map Prod.fst) ∧
    (∀ k : ℝ, k ∈ (gexSeriesByStrike [((100 : ℝ), (5 : ℝ)), (90, -3), (100, 2)]).map Prod.fst ↔
      k ∈ ([((100 : ℝ), (5 : ℝ)), (90, -3), (100, 2)]).map Prod.fst) ∧
    (∀ p ∈ gexSeriesByStrike [((100 : ℝ), (5 : ℝ)), (90, -3), (100, 2)],
      p.2 = ((([((100 : ℝ), (5 : ℝ)), (90, -3), (100, 2)]).filter
        fun q => q.1 = p.1).map Prod.snd).sum) ∧
    argminAbs (cumsum ((gexSeriesByStrike
        [((100 : ℝ), (5 : ℝ)), (90, -3), (100, 2)]).map Prod.snd)) <
      (gexSeriesByStrike [((100 : ℝ), (5 : ℝ)), (90, -3), (100, 2)]).length ∧
    zeroGammaStrike [((100 : ℝ), (5 : ℝ)), (90, -3), (100, 2)] =
      ((gexSeriesByStrike [((100 : ℝ), (5 : ℝ)), (90, -3), (100, 2)]).getD
        (argminAbs (cumsum ((gexSeriesByStrike
          [((100 : ℝ), (5 : ℝ)), (90, -3), (100, 2)]).map Prod.snd))) (0, 0)).1 ∧
    (∀ j < (cumsum ((gexSeriesByStrike
        [((100 : ℝ), (5 : ℝ)), (90, -3), (100, 2)]).map Prod.snd)).length,
      |(cumsum ((gexSeriesByStrike
        [((100 : ℝ), (5 : ℝ)), (90, -3), (100, 2)]).map Prod.snd)).getD
        (argminAbs (cumsum ((gexSeriesByStrike
          [((100 : ℝ), (5 : ℝ)), (90, -3), (100, 2)]).map Prod.snd))) 0| ≤
      |(cumsum ((gexSeriesByStrike
        [((100 : ℝ), (5 : ℝ)), (90, -3), (100, 2)]).map Prod.snd)).getD j 0|) ∧
    (∀ j < argminAbs (cumsum ((gexSeriesByStrike
        [((100 : ℝ), (5 : ℝ)), (90, -3), (100, 2)]).map Prod.snd)),
      |(cumsum ((gexSeriesByStrike
        [((100 : ℝ), (5 : ℝ)), (90, -3), (100, 2)]).map Prod.snd)).getD
        (argminAbs (cumsum ((gexSeriesByStrike
          [((100 : ℝ), (5 : ℝ)), (90, -3), (100, 2)]).map Prod.snd))) 0| <
      |(cumsum ((gexSeriesByStrike
        [((100 : ℝ), (5 : ℝ)), (90, -3), (100, 2)]).map Prod.snd)).getD j 0|) :=
  claim4_reduction_and_zero_gamma [((100 : ℝ), (5 : ℝ)), (90, -3), (100, 2)]
    (List.cons_ne_nil _ _)

end OptionsGex
